import Mathlib

/-!
Shallow embedding of the MySQL packet-framing and compression layer
(`packettransceiver.go` and the zlib wrapper) of the go-mysql-stdzlib driver.

Conventions of the embedding:
* Go byte slices become `List Nat`; every byte the code itself produces is
  taken modulo 256, mirroring Go's `byte(x)` conversions.
* The two 8-bit sequence counters (`mc.sequence`, `mc.compressionSequence`)
  become `Nat` values kept below 256 by incrementing with `(· + 1) % 256`,
  mirroring `uint8` wrap-around.
* The transport is a byte stream: reads consume a `List Nat`, writes produce
  one; `readNext n` either yields exactly `n` bytes or fails, as `mc.buf`
  does.  Write failures are injected through an explicit per-call plan.
* The zlib codec sits behind the `zlibCompressor` / `zlibDecompressor`
  interfaces in Go; it is abstracted as an explicit function argument.
* Stateful methods become functions from the touched state to an outcome
  structure carrying the result, the new state and whether the connection
  was closed on the way out.
-/

/-- Modelled from the spec: the constant `maxPacketSize` of the surrounding
driver is not part of the two source files; the spec fixes it as `2^24 - 1`,
the largest payload one frame may carry. -/
def maxPacketSize : Nat := 2 ^ 24 - 1

/-- Source constant: if packet size < minCompressSize, do not compress. -/
def minCompressSize : Nat := 100

/-- Source constant: initial buffer size for decompression. -/
def defaultDecompressBufferSize : Nat := 1024 * 16

/-- Little-endian encoding of a 24-bit length field, as produced by
`byte(n)`, `byte(n >> 8)`, `byte(n >> 16)` and by
`compressedPacketHeader.setPayload` / `setUncompressedLength`. -/
def leBytes3 (n : Nat) : List Nat := [n % 256, n / 256 % 256, n / 65536 % 256]

/-- Decoding of a 24-bit little-endian length field, as computed by
`uint32(b0) | uint32(b1)<<8 | uint32(b2)<<16` (for bytes the or of shifted
disjoint ranges is the sum). -/
def word24 (b0 b1 b2 : Nat) : Nat := b0 + b1 * 256 + b2 * 65536

/-- Errors surfaced by the read/decompress paths.  `malformPkt` stands for
the branch that logs `ErrMalformPkt`, closes the connection and returns
`ErrInvalidConn`; `ioError` stands for a failed `readNext` (the caller maps
it to `ErrInvalidConn` after closing); `decompressErr` stands for an error
returned by `zlibDecompressor.decompress`. -/
inductive ReadErr
  | pktSync
  | pktSyncMul
  | malformPkt
  | ioError
  | decompressErr
deriving DecidableEq, Repr

/-- Errors surfaced by `packetTransceiver.writePacket`.  `badConn` is
`driver.ErrBadConn` from the failed liveness probe, `badConnNoWrite` is
`errBadConnNoWrite`, `invalidConn` is `ErrInvalidConn`, `pktTooLarge` is
`ErrPktTooLarge`. -/
inductive WriteErr
  | pktTooLarge
  | badConn
  | badConnNoWrite
  | invalidConn
deriving DecidableEq, Repr

/-- State of `packetDecompressor`: the Go slice `pd.buffer` is split into
its contents (`buffer`, the first `len` bytes) and its capacity (`cap`);
`index` is the read cursor.  The Go invariant is
`index ≤ buffer.length ≤ cap`. -/
structure packetDecompressor where
  buffer : List Nat
  cap : Nat
  index : Nat
deriving DecidableEq, Repr

/-- The pending (not yet consumed) bytes `pd.buffer[pd.index:]`. -/
def packetDecompressor.pending (pd : packetDecompressor) : List Nat :=
  pd.buffer.drop pd.index

/-- Embedding of `packetDecompressor.grow`: ensure room to append
`dataLength` bytes.  If the tail capacity is short, first try shifting the
pending range `[index, len)` down to offset 0 in place (Go's overlapping
`copy` is a memmove, hence `List.drop`); otherwise allocate a fresh region
of capacity exactly `len - index + dataLength` and copy the pending range
into it. -/
def packetDecompressor.grow (pd : packetDecompressor) (dataLength : Nat) :
    packetDecompressor :=
  if pd.buffer.length + dataLength > pd.cap then
    if pd.buffer.length - pd.index + dataLength ≤ pd.cap then
      ⟨pd.buffer.drop pd.index, pd.cap, 0⟩
    else
      ⟨pd.buffer.drop pd.index, pd.buffer.length - pd.index + dataLength, 0⟩
  else pd

/-- Embedding of `sendToNetwork`: repeatedly call `conn.Write` on the not
yet written suffix until everything is written or a call errors.  One
transport call is one `(n, errored)` entry of `steps`: the call reported
`n` bytes written and whether it failed.  A terminating error-free run
never consumes more calls than its trace, so an exhausted trace is reported
as an error. -/
def sendToNetwork (data : List Nat) (index : Nat) : List (Nat × Bool) → Nat × Bool
  | [] => if index < data.length then (index, true) else (data.length, false)
  | (n, e) :: rest =>
    if index < data.length then
      if e then (index + n, true) else sendToNetwork data (index + n) rest
    else (data.length, false)

deriving instance DecidableEq for Except

/-- Outcome of `packetTransceiver.readPacket` on the uncompressed path:
the returned packet or error, the protocol sequence counter afterwards, the
unread remainder of the transport stream, and whether the connection was
closed (`mc.Close()`) on the way out. -/
structure ReadOutcome where
  result : Except ReadErr (List Nat)
  seq : Nat
  rest : List Nat
  closed : Bool
deriving DecidableEq, Repr

/-- Embedding of `packetTransceiver.readPacket` on the uncompressed path
(`compress = false`, so headers and bodies come straight from the transport
stream).  Per frame: read a 4-byte header, check the protocol sequence
byte (`ErrPktSyncMul` when greater, `ErrPktSync` when less, no close),
increment the sequence, then dispatch on the declared 24-bit length: 0 with
no accumulated fragment logs `ErrMalformPkt`, closes and fails; 0 with a
fragment returns the accumulation; a length below `maxPacketSize` returns
the (possibly accumulated) packet; `maxPacketSize` accumulates and loops.
A stream too short for a declared read is the `readNext` error path, which
closes and fails. -/
def packetTransceiver.readPacket (seq : Nat) (input : List Nat)
    (prevData : Option (List Nat)) : ReadOutcome :=
  match input with
  | b0 :: b1 :: b2 :: b3 :: rest =>
    let pktLen := word24 b0 b1 b2
    if b3 ≠ seq then
      if b3 > seq then ⟨.error .pktSyncMul, seq, rest, false⟩
      else ⟨.error .pktSync, seq, rest, false⟩
    else
      if pktLen = 0 then
        match prevData with
        | none => ⟨.error .malformPkt, (seq + 1) % 256, rest, true⟩
        | some p => ⟨.ok p, (seq + 1) % 256, rest, false⟩
      else
        if pktLen ≤ rest.length then
          if pktLen < maxPacketSize then
            match prevData with
            | none => ⟨.ok (rest.take pktLen), (seq + 1) % 256,
                rest.drop pktLen, false⟩
            | some p => ⟨.ok (p ++ rest.take pktLen), (seq + 1) % 256,
                rest.drop pktLen, false⟩
          else
            packetTransceiver.readPacket ((seq + 1) % 256) (rest.drop pktLen)
              (some (prevData.getD [] ++ rest.take pktLen))
        else ⟨.error .ioError, (seq + 1) % 256, rest, true⟩
  | _ => ⟨.error .ioError, seq, input, true⟩
termination_by input.length
decreasing_by
  simp only [List.length_cons, List.length_drop]
  omega

/-- Outcome of `packetDecompressor.decompressPacket`: the error if any, the
arena afterwards, the compression sequence counter afterwards, and the
unread remainder of the raw transport stream. -/
structure DecompressOutcome where
  error : Option ReadErr
  pd : packetDecompressor
  compressionSequence : Nat
  rest : List Nat
deriving DecidableEq, Repr

/-- The first two steps of `decompressPacket` before any transport read:
initialize a nil buffer (capacity 0) to `defaultDecompressBufferSize`, then
shrink a fully consumed buffer (`index > 0 && index == len`) back to length
and index 0, keeping its capacity. -/
def packetDecompressor.prepared (pd : packetDecompressor) : packetDecompressor :=
  let pd1 : packetDecompressor :=
    if pd.cap = 0 then ⟨[], defaultDecompressBufferSize, 0⟩ else pd
  if 0 < pd1.index ∧ pd1.index = pd1.buffer.length then ⟨[], pd1.cap, 0⟩
  else pd1

/-- Embedding of `packetDecompressor.decompressPacket`.  The zlib codec is
abstracted by `decompressFn input length`, which returns the decompressed
bytes (`decompress` fills a destination of exactly `length` bytes) or
`none` for a corrupt/truncated stream.  Steps, in source order: the
`prepared` buffer maintenance; read the 7-byte compressed header; check the
compression sequence byte (`ErrPktSyncMul` when greater, `ErrPktSync` when
less); increment it; read `payload` raw bytes; append them directly when
the uncompressed-length field is 0, else grow the arena by that length and
decompress into the new tail. -/
def packetDecompressor.decompressPacket
    (decompressFn : List Nat → Nat → Option (List Nat))
    (pd : packetDecompressor) (compressionSequence : Nat) (input : List Nat) :
    DecompressOutcome :=
  let pd2 := pd.prepared
  match input with
  | p0 :: p1 :: p2 :: s :: u0 :: u1 :: u2 :: rest =>
    let payload := word24 p0 p1 p2
    let length := word24 u0 u1 u2
    if s ≠ compressionSequence then
      if s > compressionSequence then
        ⟨some .pktSyncMul, pd2, compressionSequence, rest⟩
      else ⟨some .pktSync, pd2, compressionSequence, rest⟩
    else
      if payload ≤ rest.length then
        if length = 0 then
          let pd3 := pd2.grow payload
          ⟨none, ⟨pd3.buffer ++ rest.take payload, pd3.cap, pd3.index⟩,
            (compressionSequence + 1) % 256, rest.drop payload⟩
        else
          let pd3 := pd2.grow length
          match decompressFn (rest.take payload) length with
          | some out => ⟨none, ⟨pd3.buffer ++ out, pd3.cap, pd3.index⟩,
              (compressionSequence + 1) % 256, rest.drop payload⟩
          | none => ⟨some .decompressErr, pd3,
              (compressionSequence + 1) % 256, rest.drop payload⟩
      else ⟨some .ioError, pd2, (compressionSequence + 1) % 256, rest⟩
  | _ => ⟨some .ioError, pd2, compressionSequence, input⟩

/-- Frame-splitting loop of `packetTransceiver.writePacket` with every
transport write succeeding: the emitted frames (header plus body per
`sendToNetwork` call) and the protocol sequence afterwards.  Each pass
writes the 24-bit length and the sequence into the 4-byte header slot and
sends `data[:4+size]`; `data = data[size:]` then reuses the 4 bytes right
before the remaining payload (already sent) as the next header slot, so
the emitted payload chunks are consecutive. -/
def packetTransceiver.writeFrames (payload : List Nat) (seq : Nat) :
    List (List Nat) × Nat :=
  if h : payload.length ≥ maxPacketSize then
    let rest := packetTransceiver.writeFrames (payload.drop maxPacketSize)
        ((seq + 1) % 256)
    ((leBytes3 maxPacketSize ++ seq :: payload.take maxPacketSize) :: rest.1,
      rest.2)
  else ([leBytes3 payload.length ++ seq :: payload], (seq + 1) % 256)
termination_by payload.length
decreasing_by
  have hmps : 1 ≤ maxPacketSize := by norm_num [maxPacketSize]
  simp only [List.length_drop]
  omega

/-- One compressed-protocol frame as assembled in `pc.buffer`: the three
header fields and the on-wire body that follows the 7-byte header.  On a
well-formed frame `body.length = payloadLen`; the embedding keeps the two
separate because the code can emit them inconsistently (see C7). -/
structure CFrame where
  payloadLen : Nat
  sequence : Nat
  uncompressedLen : Nat
  body : List Nat
deriving DecidableEq, Repr

/-- Embedding of `packetCompressor.writeToBuffer`.  The zlib codec is
abstracted by `compressFn data = (appended bytes, errored)`; like
`sysZLibCompressor.compress`, the reported compressed length is 0 when it
errored, and the bytes it already appended stay in the buffer.  The Go
code assigns the error from `compress` to `err` but never inspects it, so
the embedding has no error outcome: the frame is built and handed to the
transport regardless (claim C7).  When `compress` is false, or compression
was unhelpful (`compressedLength > maxPacketSize || compressedLength >
len(data)`), the literal path sends
`min(len(data), maxPacketSize)` bytes with uncompressed-length field 0.
Returns the frame and the number of input bytes consumed. -/
def packetCompressor.literalSize (data : List Nat) : Nat :=
  if data.length ≥ maxPacketSize then maxPacketSize else data.length

/-- The `compressedLength` reported by `sysZLibCompressor.compress`:
0 when it errored, otherwise the number of appended bytes. -/
def sysCompressReported (r : List Nat × Bool) : Nat :=
  if r.2 then 0 else r.1.length

def packetCompressor.writeToBuffer (compressFn : List Nat → List Nat × Bool)
    (data : List Nat) (sequence : Nat) (compress : Bool) : CFrame × Nat :=
  if compress = false then
    (⟨packetCompressor.literalSize data, sequence, 0,
        data.take (packetCompressor.literalSize data)⟩,
      packetCompressor.literalSize data)
  else
    if sysCompressReported (compressFn data) > maxPacketSize ∨
        sysCompressReported (compressFn data) > data.length then
      (⟨packetCompressor.literalSize data, sequence, 0,
          data.take (packetCompressor.literalSize data)⟩,
        packetCompressor.literalSize data)
    else
      (⟨sysCompressReported (compressFn data), sequence, data.length,
          (compressFn data).1⟩, data.length)

/-- Embedding of `packetCompressor.writePacket` with every transport write
succeeding: split `packet` into frames via `writeToBuffer`, passing
`remain < minCompressSize` as the `compress` argument exactly as the
source does, incrementing the compression sequence after each frame.
Returns the emitted frames and the compression sequence afterwards. -/
def packetCompressor.writePacket (compressFn : List Nat → List Nat × Bool)
    (packet : List Nat) (compressionSequence : Nat) : List CFrame × Nat :=
  if h : packet.length = 0 then ([], compressionSequence)
  else
    let wb := packetCompressor.writeToBuffer compressFn packet
        compressionSequence (decide (packet.length < minCompressSize))
    let rest := packetCompressor.writePacket compressFn (packet.drop wb.2)
        ((compressionSequence + 1) % 256)
    (wb.1 :: rest.1, rest.2)
termination_by packet.length
decreasing_by
  have hmps : 1 ≤ maxPacketSize := by norm_num [maxPacketSize]
  have hsz : 1 ≤ packetCompressor.literalSize packet := by
    unfold packetCompressor.literalSize
    split <;> omega
  have hpos : 1 ≤ (packetCompressor.writeToBuffer compressFn packet
      compressionSequence (decide (packet.length < minCompressSize))).2 := by
    unfold packetCompressor.writeToBuffer
    split_ifs <;> first | exact hsz | omega
  simp only [List.length_drop]
  omega

/-- Outcome of `packetTransceiver.writePacket` in the pure model (no
transport failures): the error if any, the plain frames handed to the
transport, the compressed-protocol frames handed to the transport, both
sequence counters afterwards, and whether the connection was closed. -/
structure TxWriteOutcome where
  error : Option WriteErr
  frames : List (List Nat)
  cframes : List CFrame
  seq : Nat
  compressionSequence : Nat
  closed : Bool
deriving DecidableEq, Repr

/-- Frame-splitting loop of `packetTransceiver.writePacket` on the
compressed path: each plain frame `data[:4+size]` (header included) is
handed to `packetCompressor.writePacket`, which returns `4 + size` on
success so the `n == 4+size` check passes.  Returns the compressed frames
and both counters afterwards. -/
def packetTransceiver.writeFramesCompressed
    (compressFn : List Nat → List Nat × Bool) (payload : List Nat)
    (seq compressionSequence : Nat) : List CFrame × Nat × Nat :=
  if h : payload.length ≥ maxPacketSize then
    let r := packetCompressor.writePacket compressFn
        (leBytes3 maxPacketSize ++ seq :: payload.take maxPacketSize)
        compressionSequence
    let rest := packetTransceiver.writeFramesCompressed compressFn
        (payload.drop maxPacketSize) ((seq + 1) % 256) r.2
    (r.1 ++ rest.1, rest.2)
  else
    let r := packetCompressor.writePacket compressFn
        (leBytes3 payload.length ++ seq :: payload) compressionSequence
    (r.1, (seq + 1) % 256, r.2)
termination_by payload.length
decreasing_by
  have hmps : 1 ≤ maxPacketSize := by norm_num [maxPacketSize]
  simp only [List.length_drop]
  omega

/-- Embedding of `packetTransceiver.writePacket` with every transport write
succeeding.  In source order: reject a packet whose declared length
`len(data) - 4` exceeds `maxAllowedPacket` before anything else; then, on
a connection flagged `reset`, clear the read deadline and run the liveness
probe (`probeOk` summarizes `SetReadDeadline` and `connCheck` both
succeeding), closing and returning `driver.ErrBadConn` on failure; then
run the frame loop on the direct or the compressed path. -/
def packetTransceiver.writePacket (compressFn : List Nat → List Nat × Bool)
    (maxAllowedPacket : Nat) (data : List Nat) (compress : Bool)
    (reset probeOk : Bool) (seq compressionSequence : Nat) : TxWriteOutcome :=
  if data.length - 4 > maxAllowedPacket then
    ⟨some .pktTooLarge, [], [], seq, compressionSequence, false⟩
  else if reset = true ∧ probeOk = false then
    ⟨some .badConn, [], [], seq, compressionSequence, true⟩
  else if compress then
    let r := packetTransceiver.writeFramesCompressed compressFn
        (data.drop 4) seq compressionSequence
    ⟨none, [], r.1, r.2.1, r.2.2, false⟩
  else
    let r := packetTransceiver.writeFrames (data.drop 4) seq
    ⟨none, r.1, [], r.2, compressionSequence, false⟩

/-- Result of one `sendToNetwork` call in the failure-injected model:
either the whole frame was written (`ok`, the only error-free outcome by
`sendToNetwork_full_or_error`), or the call failed after writing `n`
bytes. -/
inductive NetOutcome
  | ok
  | fail (n : Nat)
deriving DecidableEq, Repr

/-- Outcome of the failure-injected write loop: error if any, all bytes
actually handed to the transport, the protocol sequence afterwards, and
whether the connection was torn down (`mc.cleanup()`). -/
structure NetWriteOutcome where
  error : Option WriteErr
  written : List Nat
  seq : Nat
  closed : Bool
deriving DecidableEq, Repr

/-- Frame loop of `packetTransceiver.writePacket` (direct path) with
transport failures injected: `plan i` is the result of the `i`-th
`sendToNetwork` call.  The source keeps `pktLen` and `data` as separate
variables decremented in lockstep; the embedding does too, because the
error handler compares them: on a failed write that reported 0 bytes it
returns `errBadConnNoWrite` when `pktLen == len(data)-4` (intended, per
its comment, to mean "first iteration, nothing written yet"), and
otherwise tears the connection down and returns `ErrInvalidConn`.  The
externally-observed cancellation value is not modeled (always unset). -/
def NetWriteOutcome.withFrame (frame : List Nat) (o : NetWriteOutcome) :
    NetWriteOutcome :=
  ⟨o.error, frame ++ o.written, o.seq, o.closed⟩

def packetTransceiver.writePacketNet (plan : Nat → NetOutcome) (i : Nat)
    (pktLen : Nat) (data : List Nat) (seq : Nat) : NetWriteOutcome :=
  if _hge : pktLen ≥ maxPacketSize then
    match plan i with
    | .ok =>
      NetWriteOutcome.withFrame
        (leBytes3 maxPacketSize ++ seq :: (data.drop 4).take maxPacketSize)
        (packetTransceiver.writePacketNet plan (i + 1)
          (pktLen - maxPacketSize) (data.drop maxPacketSize) ((seq + 1) % 256))
    | .fail n =>
      if n = 0 ∧ pktLen = data.length - 4 then
        ⟨some .badConnNoWrite,
          (leBytes3 maxPacketSize ++
            seq :: (data.drop 4).take maxPacketSize).take n, seq, false⟩
      else
        ⟨some .invalidConn,
          (leBytes3 maxPacketSize ++
            seq :: (data.drop 4).take maxPacketSize).take n, seq, true⟩
  else
    match plan i with
    | .ok => ⟨none, leBytes3 pktLen ++ seq :: (data.drop 4).take pktLen,
        (seq + 1) % 256, false⟩
    | .fail n =>
      if n = 0 ∧ pktLen = data.length - 4 then
        ⟨some .badConnNoWrite,
          (leBytes3 pktLen ++ seq :: (data.drop 4).take pktLen).take n,
          seq, false⟩
      else
        ⟨some .invalidConn,
          (leBytes3 pktLen ++ seq :: (data.drop 4).take pktLen).take n,
          seq, true⟩
termination_by pktLen
decreasing_by
  have hmps : 1 ≤ maxPacketSize := by norm_num [maxPacketSize]
  omega

/-- Claim C6: `packetDecompressor.grow` leaves the arena alone when the tail
capacity suffices; otherwise it compacts in place (same capacity, pending
moved to offset 0) exactly when pending + incoming fits the existing
capacity, and otherwise reallocates to capacity exactly pending + incoming.
In every case the pending bytes are preserved in content and order, the
index is 0 whenever a move happened, and afterwards
`length + incoming ≤ capacity`.  The branch taken is a pure function of
(capacity, length, index, requested length). -/
theorem packetDecompressor.grow_spec (pd : packetDecompressor) (n : Nat) :
    (pd.buffer.length + n ≤ pd.cap → pd.grow n = pd) ∧
    (pd.buffer.length + n > pd.cap →
      pd.buffer.length - pd.index + n ≤ pd.cap →
      pd.grow n = ⟨pd.buffer.drop pd.index, pd.cap, 0⟩) ∧
    (pd.buffer.length + n > pd.cap →
      pd.buffer.length - pd.index + n > pd.cap →
      pd.grow n = ⟨pd.buffer.drop pd.index,
        pd.buffer.length - pd.index + n, 0⟩) ∧
    (pd.grow n).pending = pd.pending ∧
    (pd.grow n).buffer.length + n ≤ (pd.grow n).cap := by
  unfold packetDecompressor.grow
  split_ifs with h1 h2
  · refine ⟨fun h => absurd h (by omega), fun _ _ => rfl, fun _ h => absurd h2 (by omega),
      ?_, ?_⟩
    · simp [packetDecompressor.pending]
    · simp only [List.length_drop]
      omega
  · refine ⟨fun h => absurd h (by omega), fun _ h => absurd h (by omega), fun _ _ => rfl,
      ?_, ?_⟩
    · simp [packetDecompressor.pending]
    · simp only [List.length_drop]
      omega
  · exact ⟨fun _ => rfl, fun h => absurd h (by omega), fun h => absurd h (by omega),
      rfl, by omega⟩

/-- Witness for C6 at a concrete arena: contents `[1,2,3]`, capacity 4,
cursor 1, incoming 5 forces the reallocation branch, which moves the
pending bytes `[2,3]` to offset 0 in a region of capacity exactly 7. -/
theorem packetDecompressor.grow_spec_witness :
    (⟨[1, 2, 3], 4, 1⟩ : packetDecompressor).grow 5 = ⟨[2, 3], 7, 0⟩ := by
  have h := (packetDecompressor.grow_spec ⟨[1, 2, 3], 4, 1⟩ 5).2.2.1
    (by decide) (by decide)
  simpa using h

/-- Claim C10: `sendToNetwork` returns a nil error only together with the
full length: partial transport writes are retried until everything is sent
or a call errors, and a short returned count always comes with an error.
Hence the callers' short-write checks guarded by a nil error are dead. -/
theorem sendToNetwork_full_or_error (data : List Nat) (steps : List (Nat × Bool)) :
    ((sendToNetwork data 0 steps).2 = false →
      (sendToNetwork data 0 steps).1 = data.length) ∧
    ((sendToNetwork data 0 steps).1 ≠ data.length →
      (sendToNetwork data 0 steps).2 = true) := by
  have main : ∀ (st : List (Nat × Bool)) (index : Nat),
      (sendToNetwork data index st).2 = false →
      (sendToNetwork data index st).1 = data.length := by
    intro st
    induction st with
    | nil =>
      intro index h
      simp only [sendToNetwork] at h ⊢
      split_ifs at h ⊢ with hlt
      simp_all
    | cons step rest ih =>
      intro index h
      obtain ⟨n, e⟩ := step
      simp only [sendToNetwork] at h ⊢
      split_ifs at h ⊢ with hlt he
      · exact ih (index + n) h
      · rfl
  refine ⟨main steps 0, fun hne => ?_⟩
  by_contra hfalse
  exact hne (main steps 0 (by simpa using hfalse))

/-- Witness for C10: three bytes written by one full transport call. -/
theorem sendToNetwork_full_or_error_witness :
    (sendToNetwork [1, 2, 3] 0 [(3, false)]).1 = 3 :=
  (sendToNetwork_full_or_error [1, 2, 3] [(3, false)]).1 (by decide)

/-- Pending bytes survive the buffer-maintenance prefix of
`decompressPacket` (under the Go slice invariant `length ≤ cap`). -/
theorem packetDecompressor.prepared_pending (pd : packetDecompressor)
    (hcap : pd.buffer.length ≤ pd.cap) :
    pd.prepared.pending = pd.pending := by
  unfold packetDecompressor.prepared
  by_cases hc : pd.cap = 0
  · have hbuf : pd.buffer = [] := by
      have : pd.buffer.length = 0 := by omega
      simpa using this
    simp [hc, hbuf, packetDecompressor.pending]
  · simp only [hc, if_false]
    by_cases hs : 0 < pd.index ∧ pd.index = pd.buffer.length
    · simp only [if_pos hs, packetDecompressor.pending, List.drop_nil]
      rw [hs.2, List.drop_length]
    · simp [hs]

/-- The 24-bit length field of a full frame on the wire. -/
theorem leBytes3_maxPacketSize : leBytes3 maxPacketSize = [255, 255, 255] := by
  norm_num [leBytes3, maxPacketSize]

/-- Encoding then decoding a 24-bit length is the identity below `2^24`. -/
theorem word24_leBytes3 (n : Nat) (h : n < 2 ^ 24) :
    word24 (n % 256) (n / 256 % 256) (n / 65536 % 256) = n := by
  unfold word24
  omega

/-- Decoding the full-frame length field gives `maxPacketSize`. -/
theorem word24_255 : word24 255 255 255 = maxPacketSize := by
  norm_num [word24, maxPacketSize]

theorem maxPacketSize_pos : 0 < maxPacketSize := by
  norm_num [maxPacketSize]

theorem maxPacketSize_lt : maxPacketSize < 2 ^ 24 := by
  norm_num [maxPacketSize]

/-- Reassembly invariant of the read loop: with a fragment already
accumulated, reading the frames the write loop emits for `payload` returns
the accumulation followed by `payload`, consumes the whole stream, keeps
the two sides' sequence counters in lockstep, and closes nothing. -/
theorem readPacket_writeFrames_acc (n : Nat) :
    ∀ (payload : List Nat) (seq : Nat) (acc : List Nat),
      payload.length = n →
      packetTransceiver.readPacket seq
          (packetTransceiver.writeFrames payload seq).1.flatten (some acc)
        = ⟨.ok (acc ++ payload), (packetTransceiver.writeFrames payload seq).2,
            [], false⟩ := by
  induction n using Nat.strong_induction_on with
  | _ n ih =>
    intro payload seq acc hn
    rw [packetTransceiver.writeFrames]
    by_cases hge : payload.length ≥ maxPacketSize
    · rw [dif_pos hge]
      have hchunk : (payload.take maxPacketSize).length = maxPacketSize := by
        simp [List.length_take]
        omega
      rw [List.flatten_cons, leBytes3_maxPacketSize]
      have hinput : ([255, 255, 255] ++ seq :: payload.take maxPacketSize) ++
          (packetTransceiver.writeFrames (payload.drop maxPacketSize)
            ((seq + 1) % 256)).1.flatten
          = 255 :: 255 :: 255 :: seq ::
            (payload.take maxPacketSize ++
              (packetTransceiver.writeFrames (payload.drop maxPacketSize)
                ((seq + 1) % 256)).1.flatten) := by
        simp
      rw [hinput]
      rw [packetTransceiver.readPacket.eq_2]
      rw [word24_255]
      rw [if_neg (by simp : ¬ (seq ≠ seq))]
      rw [if_neg (Nat.pos_iff_ne_zero.mp maxPacketSize_pos)]
      have h3 : maxPacketSize ≤ (payload.take maxPacketSize ++
          (packetTransceiver.writeFrames (payload.drop maxPacketSize)
            ((seq + 1) % 256)).1.flatten).length := by
        simp [hchunk]
      rw [if_pos h3]
      rw [if_neg (lt_irrefl maxPacketSize)]
      rw [List.take_left' hchunk, List.drop_left' hchunk]
      simp only [Option.getD_some]
      have hlt : (payload.drop maxPacketSize).length < n := by
        have := maxPacketSize_pos
        simp only [List.length_drop]
        omega
      rw [ih _ hlt (payload.drop maxPacketSize) ((seq + 1) % 256)
        (acc ++ payload.take maxPacketSize) rfl]
      rw [List.append_assoc, List.take_append_drop]
    · rw [dif_neg hge]
      have hflat : ([leBytes3 payload.length ++ seq :: payload] :
          List (List Nat)).flatten = leBytes3 payload.length ++ seq :: payload := by
        simp
      rw [hflat]
      have hshape : leBytes3 payload.length ++ seq :: payload =
          payload.length % 256 :: payload.length / 256 % 256 ::
            payload.length / 65536 % 256 :: seq :: payload := by
        simp [leBytes3]
      rw [hshape]
      rw [packetTransceiver.readPacket.eq_2]
      have hlt24 : payload.length < 2 ^ 24 := by
        have := maxPacketSize_lt
        omega
      rw [word24_leBytes3 payload.length hlt24]
      rw [if_neg (by simp : ¬ (seq ≠ seq))]
      by_cases hL : payload.length = 0
      · rw [if_pos hL]
        have hnil : payload = [] := List.length_eq_zero.mp hL
        simp [hnil]
      · rw [if_neg hL]
        rw [if_pos (le_refl payload.length)]
        rw [if_pos (lt_of_not_ge hge)]
        rw [List.take_length, List.drop_length]

/-- Shape of the frame list the write loop emits for a payload of length
`k * maxPacketSize + r` with `r < maxPacketSize`: `k` frames whose header
declares `maxPacketSize` and whose body has `maxPacketSize` bytes, then one
final frame declaring `r` with `r` body bytes (the zero-length terminator
when `r = 0`). -/
theorem writeFrames_structure : ∀ (k : Nat) (payload : List Nat) (seq r : Nat),
    payload.length = k * maxPacketSize + r → r < maxPacketSize →
    ∃ full lastF, (packetTransceiver.writeFrames payload seq).1 = full ++ [lastF] ∧
      full.length = k ∧
      (∀ fr ∈ full, ∃ s chunk, fr = leBytes3 maxPacketSize ++ s :: chunk ∧
        chunk.length = maxPacketSize) ∧
      (∃ s chunk, lastF = leBytes3 r ++ s :: chunk ∧ chunk.length = r) := by
  intro k
  induction k with
  | zero =>
    intro payload seq r hlen hr
    have hlr : payload.length = r := by omega
    rw [packetTransceiver.writeFrames]
    rw [dif_neg (by omega : ¬ payload.length ≥ maxPacketSize)]
    rw [hlr]
    exact ⟨[], leBytes3 r ++ seq :: payload, by simp, rfl, by simp,
      seq, payload, rfl, hlr⟩
  | succ k ihk =>
    intro payload seq r hlen hr
    rw [Nat.succ_mul] at hlen
    have hge : payload.length ≥ maxPacketSize := by omega
    have hchunk : (payload.take maxPacketSize).length = maxPacketSize := by
      simp [List.length_take]
      omega
    have hdrop : (payload.drop maxPacketSize).length = k * maxPacketSize + r := by
      simp only [List.length_drop]
      omega
    obtain ⟨full', lastF, heq, hflen, hfull, hlast⟩ :=
      ihk (payload.drop maxPacketSize) ((seq + 1) % 256) r hdrop hr
    rw [packetTransceiver.writeFrames, dif_pos hge]
    refine ⟨(leBytes3 maxPacketSize ++ seq :: payload.take maxPacketSize) :: full',
      lastF, ?_, by simp [hflen], ?_, hlast⟩
    · show (leBytes3 maxPacketSize ++ seq :: payload.take maxPacketSize) ::
          (packetTransceiver.writeFrames (payload.drop maxPacketSize)
            ((seq + 1) % 256)).1 =
        (leBytes3 maxPacketSize ++ seq :: payload.take maxPacketSize) ::
          full' ++ [lastF]
      rw [heq]
      rfl
    · intro fr hfr
      rcases List.mem_cons.mp hfr with hfr | hfr
      · exact ⟨seq, payload.take maxPacketSize, hfr, hchunk⟩
      · exact hfull fr hfr

/-- Each frame the write loop consumes at least one byte of its input, so
the compressor's frame loop makes progress. -/
theorem packetCompressor.writeToBuffer_pos
    (compressFn : List Nat → List Nat × Bool) (data : List Nat)
    (sequence : Nat) (compress : Bool) (hd : data.length ≠ 0) :
    1 ≤ (packetCompressor.writeToBuffer compressFn data sequence compress).2 := by
  have hmps := maxPacketSize_pos
  have hsz : 1 ≤ packetCompressor.literalSize data := by
    unfold packetCompressor.literalSize
    split <;> omega
  unfold packetCompressor.writeToBuffer
  split_ifs <;> first | exact hsz | omega

/-- Header-field bounds of one frame from `writeToBuffer`, assuming the
compression path is only entered for pieces below `minCompressSize` (as the
caller guarantees). -/
theorem packetCompressor.writeToBuffer_bounds
    (compressFn : List Nat → List Nat × Bool) (data : List Nat)
    (sequence : Nat) (compress : Bool)
    (hc : compress = true → data.length < minCompressSize) :
    ((packetCompressor.writeToBuffer compressFn data sequence
        compress).1).payloadLen ≤ maxPacketSize ∧
    ((packetCompressor.writeToBuffer compressFn data sequence
        compress).1).uncompressedLen ≤ maxPacketSize := by
  have hsz : packetCompressor.literalSize data ≤ maxPacketSize := by
    unfold packetCompressor.literalSize
    split <;> omega
  have hmin : minCompressSize ≤ maxPacketSize := by
    norm_num [minCompressSize, maxPacketSize]
  unfold packetCompressor.writeToBuffer
  split_ifs with h1 h2
  · exact ⟨hsz, by simp [maxPacketSize]⟩
  · exact ⟨hsz, by simp [maxPacketSize]⟩
  · have hlen := hc (by revert h1; cases compress <;> simp)
    constructor
    · show sysCompressReported (compressFn data) ≤ maxPacketSize
      omega
    · show data.length ≤ maxPacketSize
      omega

/-- Claim C1: a logical packet whose payload length is
`k * maxPacketSize + r` (`k ≥ 1`, `r < maxPacketSize`) is written as `k`
frames of `maxPacketSize` payload bytes followed by one final frame of `r`
payload bytes — the zero-length terminator exactly when `r = 0`, and no
zero-length frame otherwise — and reading that byte stream back returns
exactly the original payload, consuming the whole stream. -/
theorem packetTransceiver.split_reassembly (payload : List Nat)
    (seq k r : Nat) (hk : 1 ≤ k) (hr : r < maxPacketSize)
    (hlen : payload.length = k * maxPacketSize + r) :
    (∃ full lastF,
      (packetTransceiver.writeFrames payload seq).1 = full ++ [lastF] ∧
      full.length = k ∧
      (∀ fr ∈ full, ∃ s chunk, fr = leBytes3 maxPacketSize ++ s :: chunk ∧
        chunk.length = maxPacketSize) ∧
      (∃ s chunk, lastF = leBytes3 r ++ s :: chunk ∧ chunk.length = r)) ∧
    packetTransceiver.readPacket seq
        (packetTransceiver.writeFrames payload seq).1.flatten none
      = ⟨.ok payload, (packetTransceiver.writeFrames payload seq).2,
          [], false⟩ := by
  refine ⟨writeFrames_structure k payload seq r hlen hr, ?_⟩
  have hge : payload.length ≥ maxPacketSize := by
    obtain ⟨kp, rfl⟩ : ∃ kp, k = kp + 1 := ⟨k - 1, by omega⟩
    rw [Nat.succ_mul] at hlen
    omega
  have hchunk : (payload.take maxPacketSize).length = maxPacketSize := by
    simp [List.length_take]
    omega
  rw [packetTransceiver.writeFrames, dif_pos hge]
  rw [List.flatten_cons, leBytes3_maxPacketSize]
  have hinput : ([255, 255, 255] ++ seq :: payload.take maxPacketSize) ++
      (packetTransceiver.writeFrames (payload.drop maxPacketSize)
        ((seq + 1) % 256)).1.flatten
      = 255 :: 255 :: 255 :: seq ::
        (payload.take maxPacketSize ++
          (packetTransceiver.writeFrames (payload.drop maxPacketSize)
            ((seq + 1) % 256)).1.flatten) := by
    simp
  rw [hinput]
  rw [packetTransceiver.readPacket.eq_1]
  rw [word24_255]
  rw [if_neg (by simp : ¬ (seq ≠ seq))]
  rw [if_neg (Nat.pos_iff_ne_zero.mp maxPacketSize_pos)]
  have h3 : maxPacketSize ≤ (payload.take maxPacketSize ++
      (packetTransceiver.writeFrames (payload.drop maxPacketSize)
        ((seq + 1) % 256)).1.flatten).length := by
    simp [hchunk]
  rw [if_pos h3]
  rw [if_neg (lt_irrefl maxPacketSize)]
  rw [List.take_left' hchunk, List.drop_left' hchunk]
  simp only [Option.getD_none, List.nil_append]
  rw [readPacket_writeFrames_acc ((payload.drop maxPacketSize).length)
    (payload.drop maxPacketSize) ((seq + 1) % 256) (payload.take maxPacketSize)
    rfl]
  rw [List.take_append_drop]

/-- Witness for C1 at `k = 1`, `r = 0`: a payload of exactly
`maxPacketSize` zero bytes round-trips. -/
theorem packetTransceiver.split_reassembly_witness :
    packetTransceiver.readPacket 0
        (packetTransceiver.writeFrames
          (List.replicate maxPacketSize 0) 0).1.flatten none
      = ⟨.ok (List.replicate maxPacketSize 0),
          (packetTransceiver.writeFrames (List.replicate maxPacketSize 0) 0).2,
          [], false⟩ :=
  (packetTransceiver.split_reassembly (List.replicate maxPacketSize 0) 0 1 0
    (le_refl 1) (by norm_num [maxPacketSize]) (by simp)).2

/-- Claim C2 (divergence evaluation): the source passes
`remain < minCompressSize` as the `compress` flag, inverting the documented
heuristic.  A 100-byte piece is sent literal without ever invoking the
codec — even one a codec would shrink to 3 bytes — while a 99-byte piece is
sent through the codec and transmitted compressed; and a compressed result
exactly as large as the piece (not strictly smaller) is still transmitted
compressed. -/
theorem packetCompressor.inverted_heuristic :
    packetCompressor.writePacket (fun _ => ([1, 2, 3], false))
        (List.replicate 100 7) 5
      = ([⟨100, 5, 0, List.replicate 100 7⟩], 6) ∧
    packetCompressor.writePacket (fun _ => ([1, 2, 3], false))
        (List.replicate 99 7) 5
      = ([⟨3, 5, 99, [1, 2, 3]⟩], 6) ∧
    packetCompressor.writePacket (fun _ => (List.replicate 50 9, false))
        (List.replicate 50 7) 5
      = ([⟨50, 5, 50, List.replicate 50 9⟩], 6) := by
  refine ⟨?_, ?_, ?_⟩ <;>
    simp [packetCompressor.writePacket, packetCompressor.writeToBuffer,
      packetCompressor.literalSize, sysCompressReported, minCompressSize,
      maxPacketSize]

/-- Claim C3 (counterexample): at expected sequence 255, an arriving frame
with sequence byte 0 — which is `expected + 1` modulo 256 — is reported as
`ErrPktSync` (behind), not `ErrPktSyncMul` (ahead): the code compares raw
byte values, so the claim's `e+1 → ahead` reading fails at the wrap. -/
theorem sequence_wraparound_cex :
    (packetTransceiver.readPacket 255 [1, 0, 0, 0, 9] none).result =
      .error .pktSync ∧ ReadErr.pktSync ≠ ReadErr.pktSyncMul := by
  constructor
  · simp [packetTransceiver.readPacket, word24]
  · decide

/-- Claim C3 (amended): at both layers the comparison is on raw byte
values: a frame sequence byte numerically greater than the expected
counter yields `ErrPktSyncMul`, a numerically smaller one yields
`ErrPktSync` (so `e+1` is "ahead" only below the wrap, and at the wrap the
unsigned comparison decides); on either mismatch neither the arena's
pending bytes nor the expected counter changes, and on a match the counter
becomes `(e + 1) % 256`. -/
theorem sequence_mismatch_amended
    (decompressFn : List Nat → Nat → Option (List Nat))
    (pd : packetDecompressor) (hcap : pd.buffer.length ≤ pd.cap)
    (e b p0 p1 p2 u0 u1 u2 : Nat) (rest : List Nat)
    (q0 q1 q2 : Nat) (rest4 : List Nat)
    (prev : Option (List Nat)) (acc : List Nat) :
    (b > e →
      (packetDecompressor.decompressPacket decompressFn pd e
          (p0 :: p1 :: p2 :: b :: u0 :: u1 :: u2 :: rest)).error =
        some .pktSyncMul ∧
      (packetDecompressor.decompressPacket decompressFn pd e
          (p0 :: p1 :: p2 :: b :: u0 :: u1 :: u2 :: rest)).pd.pending =
        pd.pending ∧
      (packetDecompressor.decompressPacket decompressFn pd e
          (p0 :: p1 :: p2 :: b :: u0 :: u1 :: u2 :: rest)).compressionSequence
        = e) ∧
    (b < e →
      (packetDecompressor.decompressPacket decompressFn pd e
          (p0 :: p1 :: p2 :: b :: u0 :: u1 :: u2 :: rest)).error =
        some .pktSync ∧
      (packetDecompressor.decompressPacket decompressFn pd e
          (p0 :: p1 :: p2 :: b :: u0 :: u1 :: u2 :: rest)).pd.pending =
        pd.pending ∧
      (packetDecompressor.decompressPacket decompressFn pd e
          (p0 :: p1 :: p2 :: b :: u0 :: u1 :: u2 :: rest)).compressionSequence
        = e) ∧
    (b = e →
      (packetDecompressor.decompressPacket decompressFn pd e
          (p0 :: p1 :: p2 :: b :: u0 :: u1 :: u2 :: rest)).compressionSequence
        = (e + 1) % 256) ∧
    (b > e →
      (packetTransceiver.readPacket e (q0 :: q1 :: q2 :: b :: rest4)
          prev).result = .error .pktSyncMul ∧
      (packetTransceiver.readPacket e (q0 :: q1 :: q2 :: b :: rest4)
          prev).seq = e) ∧
    (b < e →
      (packetTransceiver.readPacket e (q0 :: q1 :: q2 :: b :: rest4)
          prev).result = .error .pktSync ∧
      (packetTransceiver.readPacket e (q0 :: q1 :: q2 :: b :: rest4)
          prev).seq = e) ∧
    (b = e → word24 q0 q1 q2 = 0 →
      packetTransceiver.readPacket e (q0 :: q1 :: q2 :: b :: rest4) (some acc)
        = ⟨.ok acc, (e + 1) % 256, rest4, false⟩) := by
  have hpend := packetDecompressor.prepared_pending pd hcap
  refine ⟨?_, ?_, ?_, ?_, ?_, ?_⟩
  · intro hgt
    have hne : b ≠ e := Nat.ne_of_gt hgt
    unfold packetDecompressor.decompressPacket
    simp [hne, hgt, hpend]
  · intro hlt
    have hne : b ≠ e := Nat.ne_of_lt hlt
    have hngt : ¬ b > e := by omega
    unfold packetDecompressor.decompressPacket
    simp [hne, hngt, hpend]
  · intro heq
    subst heq
    unfold packetDecompressor.decompressPacket
    simp only [ne_eq, not_true_eq_false, if_false, ite_not]
    split
    · split
      · simp
      · split <;> simp
    · simp
  · intro hgt
    have hne : b ≠ e := Nat.ne_of_gt hgt
    cases prev <;> simp [packetTransceiver.readPacket, hne, hgt]
  · intro hlt
    have hne : b ≠ e := Nat.ne_of_lt hlt
    have hngt : ¬ b > e := by omega
    cases prev <;> simp [packetTransceiver.readPacket, hne, hngt]
  · intro heq hz
    subst heq
    simp [packetTransceiver.readPacket, hz]

/-- Witness for C3 (amended): expected sequence 5, arriving byte 7 at the
compression layer is reported ahead with nothing mutated. -/
theorem sequence_mismatch_amended_witness :
    (packetDecompressor.decompressPacket (fun _ _ => none) ⟨[], 0, 0⟩ 5
        [1, 0, 0, 7, 0, 0, 0, 9]).error = some .pktSyncMul ∧
    (packetDecompressor.decompressPacket (fun _ _ => none) ⟨[], 0, 0⟩ 5
        [1, 0, 0, 7, 0, 0, 0, 9]).compressionSequence = 5 := by
  have h := sequence_mismatch_amended (fun _ _ => none) ⟨[], 0, 0⟩
    (by decide) 5 7 1 0 0 0 0 0 [9] 1 0 0 [9] none []
  exact ⟨(h.1 (by decide)).1, (h.1 (by decide)).2.2⟩

/-- Claim C4: every frame the packet compressor emits, for any chunk and
any codec behavior, has both 24-bit header fields within `maxPacketSize`:
the on-wire payload length and the uncompressed-length field (the consumed
piece size equals the payload length on the literal path and the
uncompressed-length on the compressed path, so no piece exceeds
`maxPacketSize` and no header field is truncated). -/
theorem packetCompressor.header_fields_bounded
    (compressFn : List Nat → List Nat × Bool) (packet : List Nat) (cs : Nat) :
    ∀ fr ∈ (packetCompressor.writePacket compressFn packet cs).1,
      fr.payloadLen ≤ maxPacketSize ∧ fr.uncompressedLen ≤ maxPacketSize := by
  have main : ∀ (n : Nat) (packet : List Nat) (cs : Nat), packet.length ≤ n →
      ∀ fr ∈ (packetCompressor.writePacket compressFn packet cs).1,
        fr.payloadLen ≤ maxPacketSize ∧ fr.uncompressedLen ≤ maxPacketSize := by
    intro n
    induction n with
    | zero =>
      intro packet cs hlen fr hfr
      rw [packetCompressor.writePacket] at hfr
      rw [dif_pos (by omega : packet.length = 0)] at hfr
      simp at hfr
    | succ n ihn =>
      intro packet cs hlen fr hfr
      by_cases h0 : packet.length = 0
      · rw [packetCompressor.writePacket, dif_pos h0] at hfr
        simp at hfr
      · rw [packetCompressor.writePacket, dif_neg h0] at hfr
        simp only [List.mem_cons] at hfr
        rcases hfr with hfr | hfr
        · subst hfr
          exact packetCompressor.writeToBuffer_bounds compressFn packet cs _
            (fun h => of_decide_eq_true h)
        · have hpos := packetCompressor.writeToBuffer_pos compressFn packet cs
            (decide (packet.length < minCompressSize)) h0
          exact ihn (packet.drop ((packetCompressor.writeToBuffer compressFn
              packet cs (decide (packet.length < minCompressSize))).2))
            ((cs + 1) % 256)
            (by simp only [List.length_drop]; omega) fr hfr
  exact main packet.length packet cs (le_refl _)

/-- Witness for C4: the single compressed frame emitted for the 3-byte
chunk `[1,2,3]` with a codec that shrinks it to one byte. -/
theorem packetCompressor.header_fields_bounded_witness :
    (⟨1, 0, 3, [9]⟩ : CFrame).payloadLen ≤ maxPacketSize ∧
    (⟨1, 0, 3, [9]⟩ : CFrame).uncompressedLen ≤ maxPacketSize :=
  packetCompressor.header_fields_bounded (fun _ => ([9], false)) [1, 2, 3] 0
    ⟨1, 0, 3, [9]⟩
    (by simp [packetCompressor.writePacket, packetCompressor.writeToBuffer,
      packetCompressor.literalSize, sysCompressReported, minCompressSize,
      maxPacketSize])

/-- Claim C5: writing a zero-length logical packet (a bare 4-byte header
slot) emits exactly one frame with declared length 0 and increments the
protocol sequence; reading a zero-length frame with no accumulated
fragment logs the malformed-packet error, closes the connection and fails,
while with a fragment present it returns the accumulation without
closing. -/
theorem packetTransceiver.zero_length_packet
    (compressFn : List Nat → List Nat × Bool) (maxAllowedPacket seq cs : Nat)
    (probeOk : Bool) (h0 h1 h2 h3 : Nat) (rest p : List Nat) :
    packetTransceiver.writePacket compressFn maxAllowedPacket [h0, h1, h2, h3]
        false false probeOk seq cs
      = ⟨none, [[0, 0, 0, seq]], [], (seq + 1) % 256, cs, false⟩
    ∧ packetTransceiver.readPacket seq (0 :: 0 :: 0 :: seq :: rest) none =
        ⟨.error .malformPkt, (seq + 1) % 256, rest, true⟩
    ∧ packetTransceiver.readPacket seq (0 :: 0 :: 0 :: seq :: rest) (some p) =
        ⟨.ok p, (seq + 1) % 256, rest, false⟩ := by
  refine ⟨?_, ?_, ?_⟩
  · unfold packetTransceiver.writePacket
    rw [if_neg (by simp : ¬ ([h0, h1, h2, h3] : List Nat).length - 4 >
      maxAllowedPacket)]
    rw [if_neg (by simp : ¬ (false = true ∧ probeOk = false))]
    rw [if_neg (by simp : ¬ (false = true))]
    rw [show ([h0, h1, h2, h3] : List Nat).drop 4 = [] from rfl]
    rw [packetTransceiver.writeFrames]
    norm_num [maxPacketSize, leBytes3]
  · simp [packetTransceiver.readPacket, word24]
  · simp [packetTransceiver.readPacket, word24]

/-- Claim C7 (divergence evaluation): `writeToBuffer` assigns the error
from `compress` to `err` but never inspects it, so with a codec that fails
after appending one byte to a 50-byte piece (the compression path, since
`50 < minCompressSize` is passed as the flag), the loop still emits a
frame — header payload field 0, uncompressed-length 50, body the one
partial byte — advances the compression sequence and reports success,
instead of propagating the error and sending nothing. -/
theorem packetCompressor.compress_error_swallowed :
    packetCompressor.writePacket (fun _ => ([42], true))
        (List.replicate 50 7) 5
      = ([⟨0, 5, 50, [42]⟩], 6) := by
  simp [packetCompressor.writePacket, packetCompressor.writeToBuffer,
    packetCompressor.literalSize, sysCompressReported, minCompressSize,
    maxPacketSize]

/-- Claim C8: a packet whose declared length `len(data) - 4` exceeds the
configured maximum is rejected with `ErrPktTooLarge` before anything else
happens: no frame reaches the transport on either path, the probe is not
run, the connection stays open, and both sequence counters are unchanged. -/
theorem packetTransceiver.oversized_rejected
    (compressFn : List Nat → List Nat × Bool) (maxAllowedPacket : Nat)
    (data : List Nat) (compress reset probeOk : Bool) (seq cs : Nat)
    (h : data.length - 4 > maxAllowedPacket) :
    packetTransceiver.writePacket compressFn maxAllowedPacket data compress
        reset probeOk seq cs
      = ⟨some .pktTooLarge, [], [], seq, cs, false⟩ := by
  unfold packetTransceiver.writePacket
  rw [if_pos h]

/-- Witness for C8: a 1-byte payload against a configured maximum of 0,
with the stale flag set and a failing probe — the oversize rejection still
wins and nothing is closed. -/
theorem packetTransceiver.oversized_rejected_witness :
    packetTransceiver.writePacket (fun _ => ([], false)) 0 [9, 9, 9, 9, 7]
        true true false 3 4
      = ⟨some .pktTooLarge, [], [], 3, 4, false⟩ :=
  packetTransceiver.oversized_rejected (fun _ => ([], false)) 0
    [9, 9, 9, 9, 7] true true false 3 4 (by decide)

/-- Claim C9 (divergence evaluation): the guard `n == 0 && pktLen ==
len(data)-4` for returning `errBadConnNoWrite` is loop-invariant (both
sides are decremented in lockstep), so for a packet of exactly
`maxPacketSize` payload bytes whose full frame is transmitted and whose
zero-length terminator frame then fails with 0 bytes written, the code
still returns the retryable bad-connection error — although
`4 + maxPacketSize` bytes are already on the wire — contradicting its own
comment ("only for the first loop iteration when nothing was written
yet"). -/
theorem packetTransceiver.badconn_after_partial_transmission
    (data : List Nat) (seq : Nat) (h : data.length = 4 + maxPacketSize) :
    (packetTransceiver.writePacketNet
        (fun i => if i = 0 then NetOutcome.ok else NetOutcome.fail 0) 0
        (data.length - 4) data seq).error = some .badConnNoWrite ∧
    (packetTransceiver.writePacketNet
        (fun i => if i = 0 then NetOutcome.ok else NetOutcome.fail 0) 0
        (data.length - 4) data seq).written.length = 4 + maxPacketSize := by
  have hp : data.length - 4 = maxPacketSize := by omega
  rw [hp]
  rw [packetTransceiver.writePacketNet]
  rw [dif_pos (le_refl maxPacketSize)]
  simp only [show (fun i => if i = 0 then NetOutcome.ok else NetOutcome.fail 0) 0
      = NetOutcome.ok from rfl]
  rw [packetTransceiver.writePacketNet]
  rw [dif_neg (by have := maxPacketSize_pos; omega :
    ¬ maxPacketSize - maxPacketSize ≥ maxPacketSize)]
  simp only [show (fun i => if i = 0 then NetOutcome.ok else NetOutcome.fail 0)
      (0 + 1) = NetOutcome.fail 0 from rfl]
  have hdl : (List.drop maxPacketSize data).length = 4 := by
    simp only [List.length_drop]
    omega
  simp only [hdl, Nat.sub_self, and_self, if_true]
  simp only [NetWriteOutcome.withFrame, List.take_zero, List.append_nil]
  refine ⟨by trivial, ?_⟩
  simp only [List.length_append, List.length_cons, List.length_take,
    List.length_drop, leBytes3, List.length_nil]
  omega

/-- Witness for C9: the concrete packet of `4 + maxPacketSize` zero
bytes. -/
theorem packetTransceiver.badconn_after_partial_transmission_witness :
    (packetTransceiver.writePacketNet
        (fun i => if i = 0 then NetOutcome.ok else NetOutcome.fail 0) 0
        ((List.replicate (4 + maxPacketSize) 0).length - 4)
        (List.replicate (4 + maxPacketSize) 0) 0).error
      = some .badConnNoWrite :=
  (packetTransceiver.badconn_after_partial_transmission
    (List.replicate (4 + maxPacketSize) 0) 0 (by simp)).1
